import Mathlib

/-!
Verification of the todo-tracking core of `todos/scripts/todo.py`:
the record store (JSONL partitions with atomic rewrite), the prefix-based
identifier resolver, the readiness query over the dependency graph, the
mutating commands (`close`, `dep`, `summary`) and the three-way merge driver.

Stores are modelled as association lists keyed by id, matching Python dicts
(insertion order preserved, assignment overwrites in place).  The wall clock
(`now()`) is passed to each mutating command as an explicit string argument.
Files are modelled at the record level: a file is a list of lines, each line
being blank, invalid JSON, or a parsed JSON value.
-/

namespace TodoCore

/-- A todo item as created by `cmd_new`: the six fields every record of this
program carries. -/
structure Item where
  id : String
  title : String
  summary : String
  status : String
  deps : List String
  updated_at : String
deriving DecidableEq, Repr

/-- A store snapshot: a Python dict keyed by id, as an association list. -/
abbrev Store := List (String × Item)

/-- Dict lookup: first binding with the given key (keys are unique in a dict). -/
def findItem : Store → String → Option Item
  | [], _ => none
  | (k, it) :: rest, key => if k = key then some it else findItem rest key

/-- Dict assignment `d[k] = it`: overwrite in place if the key exists,
append otherwise (Python dicts keep insertion order). -/
def insertItem : Store → String → Item → Store
  | [], k, it => [(k, it)]
  | (k2, it2) :: rest, k, it =>
      if k2 = k then (k, it) :: rest else (k2, it2) :: insertItem rest k it

/-- Dict deletion `del d[k]`: drop the binding with the given key. -/
def eraseItem : Store → String → Store
  | [], _ => []
  | (k2, it2) :: rest, k => if k2 = k then rest else (k2, it2) :: eraseItem rest k

/-- The key sequence of a store (`for t_id in todos`). -/
def keys (s : Store) : List String := s.map Prod.fst

/-- The value sequence of a store (`todos.values()`). -/
def values (s : Store) : List Item := s.map Prod.snd

/-- Code-point lexicographic strict comparison of character sequences:
Python's `<` on strings. -/
def charsLt : List Char → List Char → Bool
  | [], [] => false
  | [], _ :: _ => true
  | _ :: _, [] => false
  | c :: cs, d :: ds => if c < d then true else if d < c then false else charsLt cs ds

/-- Python `a < b` on strings. -/
def str_lt (a b : String) : Bool := charsLt a.data b.data

/-- Python `a <= b` on strings (so `a >= b` is `str_le b a`). -/
def str_le (a b : String) : Bool := !charsLt b.data a.data

/-- Python `k.startswith(needle)`. -/
def starts_with (k needle : String) : Bool := needle.data.isPrefixOf k.data

/-- The two failure modes of `resolve_id` (`die("unknown id")` and
`die("ambiguous id: ...")` carrying the sorted candidate list). -/
inductive ResolveError where
  | unknownId
  | ambiguousId (candidates : List String)
deriving DecidableEq, Repr

/-- Python `sorted` on a list of strings. -/
def sortStrings (l : List String) : List String :=
  List.insertionSort (fun a b => str_le a b = true) l

/-- The ids of the store that start with `needle`
(`[t_id for t_id in todos if t_id.startswith(needle)]`). -/
def id_matches (todos : Store) (needle : String) : List String :=
  (keys todos).filter (fun k => starts_with k needle)

/-- `resolve_id`: exact match first, then prefix collection; zero matches is
unknown, one resolves, several are ambiguous (sorted for display). -/
def resolve_id (todos : Store) (needle : String) : Except ResolveError String :=
  if needle ∈ keys todos then .ok needle
  else
    match id_matches todos needle with
    | [] => .error .unknownId
    | [m] => .ok m
    | ms => .error (.ambiguousId (sortStrings ms))

/-- `cmd_close`: resolve the id in the open store, stamp status and
`updated_at`, move the record into the closed store, persist both. -/
def cmd_close (todos closed : Store) (idArg now : String) :
    Except ResolveError (Store × Store) :=
  match resolve_id todos idArg with
  | .error e => .error e
  | .ok rid =>
      match findItem todos rid with
      | none => .error .unknownId
      | some it =>
          .ok (eraseItem todos rid,
               insertItem closed rid { it with status := "closed", updated_at := now })

/-- `cmd_dep`: resolve child and parent in the open store; if the parent is
not yet a dependency, append it, re-sort `deps` and stamp `updated_at`;
otherwise leave the record untouched.  The store is persisted either way. -/
def cmd_dep (todos : Store) (childArg parentArg now : String) :
    Except ResolveError Store :=
  match resolve_id todos childArg with
  | .error e => .error e
  | .ok child_id =>
      match resolve_id todos parentArg with
      | .error e => .error e
      | .ok parent_id =>
          match findItem todos child_id with
          | none => .error .unknownId
          | some it =>
              if parent_id ∈ it.deps then .ok todos
              else .ok (insertItem todos child_id
                { it with deps := sortStrings (it.deps ++ [parent_id]),
                          updated_at := now })

/-- `cmd_summary`: resolve the id, replace the summary, stamp `updated_at`. -/
def cmd_summary (todos : Store) (idArg text now : String) :
    Except ResolveError Store :=
  match resolve_id todos idArg with
  | .error e => .error e
  | .ok rid =>
      match findItem todos rid with
      | none => .error .unknownId
      | some it =>
          .ok (insertItem todos rid { it with summary := text, updated_at := now })

/-- One dependency check of `cmd_ready`:
`d in todos and todos[d]["status"] == "closed"`.  Note the code consults only
the store it loaded, which is the open partition. -/
def dep_closed_in (todos : Store) (d : String) : Bool :=
  match findItem todos d with
  | some td => td.status == "closed"
  | none => false

/-- `cmd_ready`: the open-status items of the loaded (open-partition) store
whose dependencies all pass `dep_closed_in`, sorted ascending by id. -/
def cmd_ready (todos : Store) : List Item :=
  List.insertionSort (fun a b => str_le a.id b.id = true)
    ((values todos).filter
      (fun t => t.status == "open" && t.deps.all (dep_closed_in todos)))

/-- The per-id decision of `cmd_merge`: drop when absent on both sides, keep
the present side, and on a two-sided conflict keep ours exactly when
`a["updated_at"] >= b["updated_at"]` (lexicographic string comparison). -/
def merge_pick (a b : Option Item) : Option Item :=
  match a, b with
  | none, none => none
  | some x, none => some x
  | none, some y => some y
  | some x, some y => if str_le y.updated_at x.updated_at then some x else some y

/-- The merge loop, parametrised by the order in which the id set
`set(base) | set(ours) | set(theirs)` is visited (Python set iteration order
is unspecified; it yields each id once). -/
def merge_with (order : List String) (ours theirs : Store) : Store :=
  order.filterMap (fun k =>
    (merge_pick (findItem ours k) (findItem theirs k)).map (fun it => (k, it)))

/-- One enumeration of the union of the three key sets, each id once. -/
def union_ids (base ours theirs : Store) : List String :=
  (keys base ++ keys ours ++ keys theirs).dedup

/-- `cmd_merge` on in-memory snapshots: the merged store before it is written
back over the "ours" path. -/
def cmd_merge (base ours theirs : Store) : Store :=
  merge_with (union_ids base ours theirs) ours theirs

/-- A JSON value, as produced by `json.loads` on one line of a partition
file. -/
inductive Json where
  | null
  | bool (b : Bool)
  | num (n : Int)
  | str (s : String)
  | arr (elems : List Json)
  | obj (fields : List (String × Json))
deriving Repr

/-- Field access in a JSON object (`obj[key]`): the binding that survives
duplicate keys in `json.loads` is the last one. -/
def lookupLast : List (String × Json) → String → Option Json
  | [], _ => none
  | (k, v) :: rest, key =>
      match lookupLast rest key with
      | some r => some r
      | none => if k = key then some v else none

/-- `obj[key]` on an arbitrary JSON value: only objects have fields. -/
def getField (j : Json) (key : String) : Option Json :=
  match j with
  | .obj fields => lookupLast fields key
  | _ => none

/-- A JSON value usable as a Python dict key (hashable: not a list or dict). -/
inductive JKey where
  | null
  | bool (b : Bool)
  | num (n : Int)
  | str (s : String)
deriving DecidableEq, Repr

/-- Restrict a JSON value to a dict key; arrays and objects are unhashable. -/
def toKey (j : Json) : Option JKey :=
  match j with
  | .null => some .null
  | .bool b => some (.bool b)
  | .num n => some (.num n)
  | .str s => some (.str s)
  | .arr _ => none
  | .obj _ => none

/-- One line of a partition file, at the record level: blank after stripping,
not valid JSON, or a parsed JSON value. -/
inductive Line where
  | blank
  | invalid
  | json (j : Json)

/-- The fatal outcomes of `load_todos`: a line `json.loads` rejects, or a
record without a usable `id` (missing field, non-object line, or an
unhashable id value). -/
inductive LoadError where
  | invalidJson
  | badRecord
deriving DecidableEq, Repr

/-- The dict built by `load_todos`, keyed by each record's `id` value. -/
abbrev RawStore := List (JKey × Json)

/-- Dict lookup in the raw store. -/
def findRaw : RawStore → JKey → Option Json
  | [], _ => none
  | (k, v) :: rest, key => if k = key then some v else findRaw rest key

/-- Dict assignment in the raw store (`todos[obj["id"]] = obj`). -/
def insertRaw : RawStore → JKey → Json → RawStore
  | [], k, v => [(k, v)]
  | (k2, v2) :: rest, k, v =>
      if k2 = k then (k, v) :: rest else (k2, v2) :: insertRaw rest k v

/-- The dict key a record is stored under: `obj["id"]`, as a hashable value. -/
def record_id (j : Json) : Option JKey :=
  (getField j "id").bind toKey

/-- The loop body of `load_todos`: blank lines are skipped, an unparseable
line or a record without a usable id aborts the whole load, every other
record is inserted under its id (overwriting an earlier record). -/
def load_lines : List Line → RawStore → Except LoadError RawStore
  | [], acc => .ok acc
  | .blank :: rest, acc => load_lines rest acc
  | .invalid :: _, _ => .error .invalidJson
  | .json j :: rest, acc =>
      match record_id j with
      | none => .error .badRecord
      | some k => load_lines rest (insertRaw acc k j)

/-- `load_todos`: a nonexistent file is the empty dict; otherwise the lines
are folded by `load_lines` starting from the empty dict. -/
def load_todos : Option (List Line) → Except LoadError RawStore
  | none => .ok []
  | some lines => load_lines lines []

/-- Key order on store bindings, used by the `sorted(todos)` write loop. -/
def keyLe (a b : String × Item) : Prop := str_le a.1 b.1 = true

instance : DecidableRel keyLe :=
  fun a b => inferInstanceAs (Decidable (str_le a.1 b.1 = true))

/-- The store in the order `write_todos` emits it: ascending by id. -/
def sort_store (s : Store) : Store := List.insertionSort keyLe s

/-- `json.dumps` of an item dict, at the record level: the six fields in the
insertion order `cmd_new` creates them. -/
def itemToJson (it : Item) : Json :=
  .obj [("id", .str it.id), ("title", .str it.title),
        ("summary", .str it.summary), ("status", .str it.status),
        ("deps", .arr (it.deps.map .str)), ("updated_at", .str it.updated_at)]

/-- `write_todos`: one JSON record per line, ascending by id. -/
def write_todos (s : Store) : List Line :=
  (sort_store s).map (fun p => Line.json (itemToJson p.2))

/-- The record carried by a line, if any. -/
def line_record : Line → Option Json
  | .json j => some j
  | _ => none

/-- A line `load_todos` accepts: blank, or a record with a usable id. -/
def good_line (l : Line) : Prop :=
  l = .blank ∨ ∃ j k, l = .json j ∧ record_id j = some k

/-- The last element of the list satisfying the predicate. -/
def last_with (p : Json → Bool) : List Json → Option Json
  | [] => none
  | j :: rest =>
      match last_with p rest with
      | some r => some r
      | none => if p j then some j else none

/-- Fixture: a closed item, at rest in the closed partition. -/
def exA : Item :=
  { id := "td-aaaa0001", title := "spec", summary := "", status := "closed",
    deps := [], updated_at := "2024-01-01T00:00:00Z" }

/-- Fixture: an open item whose sole dependency is `exA`. -/
def exB : Item :=
  { id := "td-bbbb0001", title := "impl", summary := "", status := "open",
    deps := ["td-aaaa0001"], updated_at := "2024-01-02T00:00:00Z" }

/-- Fixture: the open partition holding only `exB`. -/
def exOpen : Store := [("td-bbbb0001", exB)]

/-- Fixture: the closed partition holding only `exA`. -/
def exClosed : Store := [("td-aaaa0001", exA)]

/-- Fixture: a freshly created open item with no dependencies. -/
def exI : Item :=
  { id := "td-cccc0001", title := "write spec", summary := "", status := "open",
    deps := [], updated_at := "2024-01-01T00:00:00Z" }

/-- Fixture: the open partition right after `new "write spec"`. -/
def exStoreI : Store := [("td-cccc0001", exI)]

/-- Fixture: an open item that already depends on `exP`. -/
def exX : Item :=
  { id := "td-xxxx0001", title := "child", summary := "", status := "open",
    deps := ["td-pppp0001"], updated_at := "2024-01-01T00:00:00Z" }

/-- Fixture: `exX` before its dependency edge was added. -/
def exC : Item :=
  { id := "td-xxxx0001", title := "child", summary := "", status := "open",
    deps := [], updated_at := "2024-01-01T00:00:00Z" }

/-- Fixture: the parent item of `exX`. -/
def exP : Item :=
  { id := "td-pppp0001", title := "parent", summary := "", status := "open",
    deps := [], updated_at := "2024-01-01T00:00:00Z" }

/-- Fixture: an open partition where the `dep` edge is already present. -/
def exDepStore : Store := [("td-xxxx0001", exX), ("td-pppp0001", exP)]

/-- Fixture: a store with two ids sharing the prefix `td-aaaa`. -/
def exAmbStore : Store :=
  [("td-aaaa1111", { exA with id := "td-aaaa1111" }),
   ("td-aaaa2222", { exA with id := "td-aaaa2222" })]

/-- Fixture: ours' version of a contested record (older timestamp). -/
def exOurs : Item :=
  { id := "td-mmmm0001", title := "ours", summary := "", status := "open",
    deps := [], updated_at := "2024-01-01T00:00:00Z" }

/-- Fixture: theirs' version of the contested record (newer timestamp). -/
def exTheirs : Item :=
  { id := "td-mmmm0001", title := "theirs", summary := "", status := "open",
    deps := [], updated_at := "2024-06-01T00:00:00Z" }

theorem charsLt_iff (cs ds : List Char) : charsLt cs ds = true ↔ cs.lt ds := by
  induction cs generalizing ds with
  | nil =>
    cases ds with
    | nil =>
      simp only [charsLt, Bool.false_eq_true, false_iff]
      intro h; cases h
    | cons d ds =>
      simp only [charsLt, true_iff]
      exact List.lt.nil d ds
  | cons c cs ih =>
    cases ds with
    | nil =>
      simp only [charsLt, Bool.false_eq_true, false_iff]
      intro h; cases h
    | cons d ds =>
      simp only [charsLt]
      by_cases h1 : c < d
      · simp only [if_pos h1, true_iff]
        exact List.lt.head cs ds h1
      · by_cases h2 : d < c
        · simp only [if_neg h1, if_pos h2, Bool.false_eq_true, false_iff]
          intro h
          cases h with
          | head _ _ hlt => exact h1 hlt
          | tail _ hnlt _ => exact hnlt h2
        · simp only [if_neg h1, if_neg h2, ih]
          constructor
          · exact fun h => List.lt.tail h1 h2 h
          · intro h
            cases h with
            | head _ _ hlt => exact absurd hlt h1
            | tail _ _ htail => exact htail

/-- `str_lt` is the lexicographic order on strings. -/
theorem str_lt_iff (a b : String) : str_lt a b = true ↔ a < b := by
  rw [String.lt_iff_toList_lt]
  exact (charsLt_iff a.data b.data).trans (List.lt_iff_lex_lt a.data b.data)

/-- `str_le` is the lexicographic order on strings. -/
theorem str_le_iff (a b : String) : str_le a b = true ↔ a ≤ b := by
  rw [str_le, Bool.not_eq_true', ← not_lt (a := b) (b := a)]
  constructor
  · intro h hc
    exact absurd ((str_lt_iff b a).mpr hc) (by simp [str_lt, h])
  · intro h
    by_contra hc
    refine h ((str_lt_iff b a).mp ?_)
    simp only [str_lt]
    simp at hc
    simp [hc]

instance : IsTotal (String × Item) keyLe :=
  ⟨fun a b => by
    rcases le_total a.1 b.1 with h | h
    · exact Or.inl ((str_le_iff a.1 b.1).mpr h)
    · exact Or.inr ((str_le_iff b.1 a.1).mpr h)⟩

instance : IsTrans (String × Item) keyLe :=
  ⟨fun a b c h1 h2 => (str_le_iff a.1 c.1).mpr
    (le_trans ((str_le_iff a.1 b.1).mp h1) ((str_le_iff b.1 c.1).mp h2))⟩

theorem findItem_eq_none_iff (s : Store) (k : String) :
    findItem s k = none ↔ k ∉ keys s := by
  induction s with
  | nil => simp [findItem, keys]
  | cons p rest ih =>
    obtain ⟨kp, ip⟩ := p
    by_cases h : kp = k
    · subst h
      simp [findItem, keys]
    · simp [findItem, keys, h, ih, Ne.symm h]

theorem mem_keys_of_findItem {s : Store} {k : String} {it : Item}
    (h : findItem s k = some it) : k ∈ keys s := by
  by_contra hc
  rw [← findItem_eq_none_iff] at hc
  rw [h] at hc
  cases hc

theorem findItem_mem_values {s : Store} {k : String} {it : Item}
    (h : findItem s k = some it) : it ∈ values s := by
  induction s with
  | nil => cases h
  | cons p rest ih =>
    obtain ⟨kp, ip⟩ := p
    simp only [findItem] at h
    by_cases hk : kp = k
    · rw [if_pos hk] at h
      cases h
      simp [values]
    · rw [if_neg hk] at h
      simp [values]
      exact Or.inr (by simpa [values] using ih h)

theorem findItem_insert_self (s : Store) (k : String) (it : Item) :
    findItem (insertItem s k it) k = some it := by
  induction s with
  | nil => simp [insertItem, findItem]
  | cons p rest ih =>
    obtain ⟨kp, ip⟩ := p
    by_cases h : kp = k
    · simp [insertItem, findItem, h]
    · simp [insertItem, findItem, h, ih]

theorem findItem_insert_ne (s : Store) (k k2 : String) (it : Item)
    (h : k2 ≠ k) : findItem (insertItem s k it) k2 = findItem s k2 := by
  induction s with
  | nil => simp [insertItem, findItem, Ne.symm h]
  | cons p rest ih =>
    obtain ⟨kp, ip⟩ := p
    by_cases hk : kp = k
    · subst hk
      simp [insertItem, findItem, Ne.symm h]
    · simp only [insertItem, if_neg hk, findItem]
      by_cases hk2 : kp = k2
      · simp [hk2]
      · simp [hk2, ih]

theorem findItem_erase_ne (s : Store) (k k2 : String) (h : k2 ≠ k) :
    findItem (eraseItem s k) k2 = findItem s k2 := by
  induction s with
  | nil => simp [eraseItem]
  | cons p rest ih =>
    obtain ⟨kp, ip⟩ := p
    by_cases hk : kp = k
    · subst hk
      simp [eraseItem, findItem, Ne.symm h]
    · simp only [eraseItem, if_neg hk, findItem]
      by_cases hk2 : kp = k2
      · simp [hk2]
      · simp [hk2, ih]

theorem findItem_erase_self (s : Store) (k : String) (hnd : (keys s).Nodup) :
    findItem (eraseItem s k) k = none := by
  induction s with
  | nil => simp [eraseItem, findItem]
  | cons p rest ih =>
    obtain ⟨kp, ip⟩ := p
    simp only [keys, List.map_cons, List.nodup_cons] at hnd
    by_cases hk : kp = k
    · subst hk
      simp only [eraseItem, if_pos rfl]
      rw [findItem_eq_none_iff]
      exact hnd.1
    · simp only [eraseItem, if_neg hk, findItem, if_neg hk]
      exact ih hnd.2

theorem findItem_perm {s1 s2 : Store} (h : s1.Perm s2) :
    (keys s1).Nodup → ∀ k, findItem s1 k = findItem s2 k := by
  induction h with
  | nil => exact fun _ _ => rfl
  | cons p _ ih =>
    intro hnd k
    obtain ⟨kp, ip⟩ := p
    simp only [keys, List.map_cons, List.nodup_cons] at hnd
    simp only [findItem]
    by_cases hk : kp = k
    · simp [hk]
    · simp only [if_neg hk]
      exact ih hnd.2 k
  | swap x y l =>
    intro hnd k
    obtain ⟨kx, ix⟩ := x
    obtain ⟨ky, iy⟩ := y
    simp only [keys, List.map_cons, List.nodup_cons, List.mem_cons] at hnd
    have hne : ky ≠ kx := fun hh => hnd.1 (Or.inl hh)
    simp only [findItem]
    by_cases hy : ky = k
    · subst hy
      simp [Ne.symm hne]
    · simp [hy]
  | trans h1 _ ih1 ih2 =>
    intro hnd k
    have hnd2 : (keys _).Nodup := ((h1.map Prod.fst).nodup_iff).mp hnd
    exact (ih1 hnd k).trans (ih2 hnd2 k)

theorem findItem_merge_with (order : List String) (ours theirs : Store)
    (k : String) :
    findItem (merge_with order ours theirs) k =
      if k ∈ order then merge_pick (findItem ours k) (findItem theirs k)
      else none := by
  induction order with
  | nil => simp [merge_with, findItem]
  | cons h0 rest ih =>
    by_cases hk : k = h0
    · subst hk
      cases hp : merge_pick (findItem ours k) (findItem theirs k) with
      | none =>
        have heq : merge_with (k :: rest) ours theirs = merge_with rest ours theirs := by
          simp [merge_with, List.filterMap_cons, hp]
        rw [heq, ih]
        by_cases hr : k ∈ rest
        · simp [hr, hp]
        · simp [hr]
      | some it =>
        have heq : merge_with (k :: rest) ours theirs =
            (k, it) :: merge_with rest ours theirs := by
          simp [merge_with, List.filterMap_cons, hp]
        rw [heq]
        simp [findItem, hp]
    · have hmw : findItem (merge_with (h0 :: rest) ours theirs) k =
          findItem (merge_with rest ours theirs) k := by
        cases hp : merge_pick (findItem ours h0) (findItem theirs h0) with
        | none => simp [merge_with, List.filterMap_cons, hp]
        | some it =>
          have heq : merge_with (h0 :: rest) ours theirs =
              (h0, it) :: merge_with rest ours theirs := by
            simp [merge_with, List.filterMap_cons, hp]
          rw [heq]
          simp [findItem, hk, Ne.symm hk]
      rw [hmw, ih]
      simp [List.mem_cons, hk]

theorem mem_union_ids (base ours theirs : Store) (k : String) :
    k ∈ union_ids base ours theirs ↔
      k ∈ keys base ∨ k ∈ keys ours ∨ k ∈ keys theirs := by
  simp [union_ids, List.mem_dedup, List.mem_append, or_assoc]

theorem findItem_cmd_merge (base ours theirs : Store) (k : String) :
    findItem (cmd_merge base ours theirs) k =
      merge_pick (findItem ours k) (findItem theirs k) := by
  rw [cmd_merge, findItem_merge_with]
  by_cases h : k ∈ union_ids base ours theirs
  · rw [if_pos h]
  · rw [if_neg h]
    rw [mem_union_ids] at h
    push_neg at h
    have ho : findItem ours k = none := (findItem_eq_none_iff ours k).mpr h.2.1
    have ht : findItem theirs k = none := (findItem_eq_none_iff theirs k).mpr h.2.2
    rw [ho, ht]
    rfl

theorem sortStrings_sorted (l : List String) :
    List.Sorted (· ≤ ·) (sortStrings l) := by
  letI : IsTotal String (fun a b => str_le a b = true) :=
    ⟨fun a b => by
      rcases le_total a b with h | h
      · exact Or.inl ((str_le_iff a b).mpr h)
      · exact Or.inr ((str_le_iff b a).mpr h)⟩
  letI : IsTrans String (fun a b => str_le a b = true) :=
    ⟨fun a b c h1 h2 => (str_le_iff a c).mpr
      (le_trans ((str_le_iff a b).mp h1) ((str_le_iff b c).mp h2))⟩
  have h := List.sorted_insertionSort (fun a b => str_le a b = true) l
  exact h.imp (fun hab => (str_le_iff _ _).mp hab)

theorem sortStrings_perm (l : List String) : (sortStrings l).Perm l :=
  List.perm_insertionSort (fun a b => str_le a b = true) l

/-- C1: the claim fails on the code.  With open partition `exOpen` (its only
item `exB` is open and depends exactly on `td-aaaa0001`) and closed partition
`exClosed` (where `td-aaaa0001` rests with status closed), the claim requires
the ready query to list `exB`; but `cmd_ready` consults only the open
partition it loaded, where a dependency id is never found with status closed,
so the query returns the empty list. -/
theorem ready_drops_item_with_closed_dep :
    cmd_ready exOpen = [] ∧
    findItem exOpen "td-bbbb0001" = some exB ∧
    exB.status = "open" ∧
    exB.deps = ["td-aaaa0001"] ∧
    findItem exClosed "td-aaaa0001" = some exA ∧
    exA.status = "closed" :=
  ⟨rfl, rfl, rfl, rfl, rfl, rfl⟩

/-- C2: per id, the merge output drops ids absent from both sides, keeps
ours' record when theirs lacks the id, keeps theirs' record when ours lacks
it, and on a two-sided conflict keeps the record with the lexicographically
greater `updated_at`, preferring ours on a tie. -/
theorem merge_per_id_spec (base ours theirs : Store) (id : String) :
    (findItem ours id = none → findItem theirs id = none →
      findItem (cmd_merge base ours theirs) id = none) ∧
    (∀ a, findItem ours id = some a → findItem theirs id = none →
      findItem (cmd_merge base ours theirs) id = some a) ∧
    (∀ b, findItem ours id = none → findItem theirs id = some b →
      findItem (cmd_merge base ours theirs) id = some b) ∧
    (∀ a b, findItem ours id = some a → findItem theirs id = some b →
      b.updated_at < a.updated_at →
      findItem (cmd_merge base ours theirs) id = some a) ∧
    (∀ a b, findItem ours id = some a → findItem theirs id = some b →
      a.updated_at < b.updated_at →
      findItem (cmd_merge base ours theirs) id = some b) ∧
    (∀ a b, findItem ours id = some a → findItem theirs id = some b →
      a.updated_at = b.updated_at →
      findItem (cmd_merge base ours theirs) id = some a) := by
  refine ⟨?_, ?_, ?_, ?_, ?_, ?_⟩
  · intro ha hb
    rw [findItem_cmd_merge, ha, hb]
    rfl
  · intro a ha hb
    rw [findItem_cmd_merge, ha, hb]
    rfl
  · intro b ha hb
    rw [findItem_cmd_merge, ha, hb]
    rfl
  · intro a b ha hb hlt
    rw [findItem_cmd_merge, ha, hb]
    have hle : str_le b.updated_at a.updated_at = true :=
      (str_le_iff _ _).mpr (le_of_lt hlt)
    simp [merge_pick, hle]
  · intro a b ha hb hlt
    rw [findItem_cmd_merge, ha, hb]
    have hle : ¬ str_le b.updated_at a.updated_at = true := by
      rw [str_le_iff]
      exact not_le.mpr hlt
    simp [merge_pick, hle]
  · intro a b ha hb heq
    rw [findItem_cmd_merge, ha, hb]
    have hle : str_le b.updated_at a.updated_at = true :=
      (str_le_iff _ _).mpr (le_of_eq heq.symm)
    simp [merge_pick, hle]

/-- C2 witness: with a contested id, the newer theirs record wins when its
timestamp is greater, and ours wins the tie when timestamps are equal. -/
theorem merge_per_id_spec_witness :
    findItem (cmd_merge [] [("td-mmmm0001", exOurs)] [("td-mmmm0001", exTheirs)])
      "td-mmmm0001" = some exTheirs ∧
    findItem (cmd_merge [] [("td-mmmm0001", exOurs)]
      [("td-mmmm0001", { exTheirs with updated_at := "2024-01-01T00:00:00Z" })])
      "td-mmmm0001" = some exOurs := by
  constructor
  · exact (merge_per_id_spec [] [("td-mmmm0001", exOurs)]
      [("td-mmmm0001", exTheirs)] "td-mmmm0001").2.2.2.2.1 exOurs exTheirs rfl rfl
      (by rw [← str_lt_iff]; rfl)
  · exact (merge_per_id_spec [] [("td-mmmm0001", exOurs)]
      [("td-mmmm0001", { exTheirs with updated_at := "2024-01-01T00:00:00Z" })]
      "td-mmmm0001").2.2.2.2.2 exOurs _ rfl rfl rfl

/-- C4: `resolve_id` returns an exact match outright (even when that id is a
prefix of another stored id); otherwise zero prefix matches fail with
`unknownId`, a unique match resolves to it, and two or more fail with
`ambiguousId` carrying the sorted candidate list. -/
theorem resolve_id_spec (todos : Store) (needle : String) :
    (needle ∈ keys todos → resolve_id todos needle = .ok needle) ∧
    (needle ∉ keys todos → id_matches todos needle = [] →
      resolve_id todos needle = .error .unknownId) ∧
    (∀ m, needle ∉ keys todos → id_matches todos needle = [m] →
      resolve_id todos needle = .ok m) ∧
    (∀ m1 m2 ms, needle ∉ keys todos →
      id_matches todos needle = m1 :: m2 :: ms →
      resolve_id todos needle =
        .error (.ambiguousId (sortStrings (m1 :: m2 :: ms)))) := by
  refine ⟨?_, ?_, ?_, ?_⟩
  · intro h
    simp [resolve_id, h]
  · intro h hm
    simp [resolve_id, h, hm]
  · intro m h hm
    simp [resolve_id, h, hm]
  · intro m1 m2 ms h hm
    simp [resolve_id, h, hm]

/-- C4 witness: with ids `td-aaaa1111` and `td-aaaa2222` both stored, the
shared prefix is ambiguous (sorted candidates) and the full id resolves
exactly even though it is also a prefix-match candidate. -/
theorem resolve_id_spec_witness :
    resolve_id exAmbStore "td-aaaa1111" = .ok "td-aaaa1111" ∧
    resolve_id exAmbStore "td-aaaa" =
      .error (.ambiguousId ["td-aaaa1111", "td-aaaa2222"]) ∧
    resolve_id exAmbStore "td-zzzz" = .error .unknownId := by
  refine ⟨?_, ?_, ?_⟩
  · exact (resolve_id_spec exAmbStore "td-aaaa1111").1 (by decide)
  · exact (resolve_id_spec exAmbStore "td-aaaa").2.2.2 "td-aaaa1111" "td-aaaa2222" []
      (by decide) (by decide)
  · exact (resolve_id_spec exAmbStore "td-zzzz").2.1 (by decide) (by decide)

theorem starts_with_self (s : String) : starts_with s s = true := by
  simp [starts_with, List.isPrefixOf_iff_prefix]

theorem mem_cmd_ready {todos : Store} {it : Item}
    (hval : it ∈ values todos) (hopen : it.status = "open")
    (hdeps : it.deps.all (dep_closed_in todos) = true) :
    it ∈ cmd_ready todos := by
  rw [cmd_ready]
  rw [List.Perm.mem_iff (List.perm_insertionSort _ _)]
  rw [List.mem_filter]
  refine ⟨hval, ?_⟩
  rw [Bool.and_eq_true]
  exact ⟨by simp [hopen], hdeps⟩

/-- C3 counterexample: in the claim's concrete scenario (`new` created item
`exI` with id `td-cccc0001`; `dep` is invoked with that child and a parent
needle `td-zzzz` matching no item) the claim requires the subsequent ready
query to exclude the item; instead `cmd_dep` aborts with `unknownId`, no
dependency is recorded, and the ready query still lists the item. -/
theorem dep_dangling_counterexample :
    cmd_dep exStoreI "td-cccc0001" "td-zzzz" "2024-01-03T00:00:00Z" =
      .error .unknownId ∧
    cmd_ready exStoreI = [exI] :=
  ⟨rfl, rfl⟩

/-- C3 amended: when `new` created item I and `dep` is invoked with child I
and a parent needle matching no existing id, the `dep` command fails with
`unknownId` (so no dangling dependency is ever recorded), and the subsequent
ready query still includes I, whose dependency list is still empty. -/
theorem dep_unknown_parent_fails (todos : Store)
    (childArg parentArg now : String) (it : Item)
    (hfind : findItem todos childArg = some it)
    (hopen : it.status = "open") (hdeps : it.deps = [])
    (hnp : ∀ k ∈ keys todos, starts_with k parentArg = false) :
    cmd_dep todos childArg parentArg now = .error .unknownId ∧
    it ∈ cmd_ready todos := by
  have hmem : childArg ∈ keys todos := mem_keys_of_findItem hfind
  have hres : resolve_id todos childArg = .ok childArg := by
    simp [resolve_id, hmem]
  have hpnot : parentArg ∉ keys todos := by
    intro hc
    have := hnp parentArg hc
    rw [starts_with_self] at this
    cases this
  have hmatches : id_matches todos parentArg = [] := by
    rw [id_matches, List.filter_eq_nil_iff]
    intro k hk
    simp [hnp k hk]
  have hpres : resolve_id todos parentArg = .error .unknownId := by
    simp [resolve_id, hpnot, hmatches]
  constructor
  · simp [cmd_dep, hres, hpres]
  · exact mem_cmd_ready (findItem_mem_values hfind) hopen (by simp [hdeps])

/-- C3 witness: the amended statement at the concrete scenario store. -/
theorem dep_unknown_parent_fails_witness :
    cmd_dep exStoreI "td-cccc0001" "td-zzzz" "2024-01-03T00:00:00Z" =
      .error .unknownId ∧
    exI ∈ cmd_ready exStoreI :=
  dep_unknown_parent_fails exStoreI "td-cccc0001" "td-zzzz"
    "2024-01-03T00:00:00Z" exI rfl rfl rfl (by decide)

/-- C6 counterexample: a successful `dep` whose parent is already present in
the child's dependency list persists the store unchanged: the affected
item's `updated_at` keeps its old value instead of the current time. -/
theorem dep_existing_edge_skips_stamp :
    cmd_dep exDepStore "td-xxxx0001" "td-pppp0001" "2025-03-03T00:00:00Z" =
      .ok exDepStore ∧
    (findItem exDepStore "td-xxxx0001").map (fun t => t.updated_at) =
      some "2024-01-01T00:00:00Z" ∧
    "2024-01-01T00:00:00Z" ≠ "2025-03-03T00:00:00Z" :=
  ⟨rfl, rfl, by decide⟩

/-- C6 amended: every successful `close` and `summary` sets the affected
item's `updated_at` to the current time before persisting, and so does every
successful `dep` whose parent is not yet a dependency of the child; a `dep`
whose parent is already present succeeds but persists the store unchanged,
leaving `updated_at` untouched. -/
theorem mutators_stamp_updated_at (todos closed : Store)
    (idArg text childArg parentArg now : String) :
    (∀ o2 c2, cmd_close todos closed idArg now = .ok (o2, c2) →
      ∃ rid it, resolve_id todos idArg = .ok rid ∧
        findItem c2 rid = some it ∧ it.updated_at = now) ∧
    (∀ s2, cmd_summary todos idArg text now = .ok s2 →
      ∃ rid it, resolve_id todos idArg = .ok rid ∧
        findItem s2 rid = some it ∧ it.updated_at = now) ∧
    (∀ s2 cid pid it, cmd_dep todos childArg parentArg now = .ok s2 →
      resolve_id todos childArg = .ok cid →
      resolve_id todos parentArg = .ok pid →
      findItem todos cid = some it →
      (pid ∉ it.deps →
        ∃ it2, findItem s2 cid = some it2 ∧ it2.updated_at = now) ∧
      (pid ∈ it.deps → s2 = todos)) := by
  refine ⟨?_, ?_, ?_⟩
  · intro o2 c2 h
    cases hres : resolve_id todos idArg with
    | error e => simp [cmd_close, hres] at h
    | ok rid =>
      cases hfind : findItem todos rid with
      | none => simp [cmd_close, hres, hfind] at h
      | some it =>
        simp [cmd_close, hres, hfind] at h
        refine ⟨rid, { it with status := "closed", updated_at := now }, rfl, ?_, rfl⟩
        rw [← h.2]
        exact findItem_insert_self closed rid _
  · intro s2 h
    cases hres : resolve_id todos idArg with
    | error e => simp [cmd_summary, hres] at h
    | ok rid =>
      cases hfind : findItem todos rid with
      | none => simp [cmd_summary, hres, hfind] at h
      | some it =>
        simp [cmd_summary, hres, hfind] at h
        refine ⟨rid, { it with summary := text, updated_at := now }, rfl, ?_, rfl⟩
        rw [← h]
        exact findItem_insert_self todos rid _
  · intro s2 cid pid it h hc hp hfind
    simp only [cmd_dep, hc, hp, hfind] at h
    by_cases hdep : pid ∈ it.deps
    · rw [if_pos hdep] at h
      cases h
      exact ⟨fun hn => absurd hdep hn, fun _ => rfl⟩
    · rw [if_neg hdep] at h
      cases h
      refine ⟨fun _ => ?_, fun hmem => absurd hmem hdep⟩
      refine ⟨{ it with deps := sortStrings (it.deps ++ [pid]), updated_at := now },
        ?_, rfl⟩
      exact findItem_insert_self todos cid _

/-- C6 witness: the amended statement driven at concrete inputs: `close`
stamps the moved item, and a `dep` adding a fresh edge stamps the child. -/
theorem mutators_stamp_updated_at_witness :
    (∃ rid it, resolve_id exStoreI "td-cccc0001" = .ok rid ∧
      findItem [("td-cccc0001",
        { exI with status := "closed", updated_at := "2025-03-03T00:00:00Z" })] rid =
        some it ∧ it.updated_at = "2025-03-03T00:00:00Z") ∧
    (∃ it2, findItem
        (insertItem [("td-xxxx0001", exC), ("td-pppp0001", exP)] "td-xxxx0001"
          { exC with
              deps := sortStrings (exC.deps ++ ["td-pppp0001"]),
              updated_at := "2025-03-03T00:00:00Z" })
        "td-xxxx0001" = some it2 ∧
      it2.updated_at = "2025-03-03T00:00:00Z") := by
  constructor
  · exact (mutators_stamp_updated_at exStoreI [] "td-cccc0001" "" "" ""
      "2025-03-03T00:00:00Z").1 [] _ rfl
  · exact ((mutators_stamp_updated_at
      [("td-xxxx0001", exC), ("td-pppp0001", exP)] []
      "" "" "td-xxxx0001" "td-pppp0001" "2025-03-03T00:00:00Z").2.2 _
      "td-xxxx0001" "td-pppp0001" exC rfl rfl rfl rfl).1
      (by decide)

/-- C7: a successful `close` removes the resolved item from the open store,
adds it to the closed store with status closed and the fresh timestamp, and
preserves disjointness of the two partitions. -/
theorem close_preserves_partition (todos closed : Store) (idArg now : String)
    (o2 c2 : Store) (hnd : (keys todos).Nodup)
    (hdisj : ∀ k, findItem todos k ≠ none → findItem closed k = none)
    (h : cmd_close todos closed idArg now = .ok (o2, c2)) :
    ∃ rid it, resolve_id todos idArg = .ok rid ∧
      findItem todos rid = some it ∧
      findItem o2 rid = none ∧
      findItem c2 rid = some { it with status := "closed", updated_at := now } ∧
      ∀ k, findItem o2 k ≠ none → findItem c2 k = none := by
  cases hres : resolve_id todos idArg with
  | error e => simp [cmd_close, hres] at h
  | ok rid =>
    cases hfind : findItem todos rid with
    | none => simp [cmd_close, hres, hfind] at h
    | some it =>
      simp only [cmd_close, hres, hfind, Except.ok.injEq, Prod.mk.injEq] at h
      refine ⟨rid, it, rfl, hfind, ?_, ?_, ?_⟩
      · rw [← h.1]
        exact findItem_erase_self todos rid hnd
      · rw [← h.2]
        exact findItem_insert_self closed rid _
      · intro k hk
        by_cases hkr : k = rid
        · subst hkr
          rw [← h.1] at hk
          exact absurd (findItem_erase_self todos k hnd) hk
        · rw [← h.2, findItem_insert_ne closed rid k _ hkr]
          apply hdisj
          rw [← h.1] at hk
          rw [findItem_erase_ne todos rid k hkr] at hk
          exact hk

/-- C7 witness: closing the only open item with an empty closed partition. -/
theorem close_preserves_partition_witness :
    ∃ rid it, resolve_id exStoreI "td-cccc0001" = .ok rid ∧
      findItem exStoreI rid = some it ∧
      findItem (eraseItem exStoreI "td-cccc0001") rid = none ∧
      findItem (insertItem [] "td-cccc0001"
        { exI with status := "closed", updated_at := "2025-03-03T00:00:00Z" }) rid =
        some { it with status := "closed", updated_at := "2025-03-03T00:00:00Z" } ∧
      ∀ k, findItem (eraseItem exStoreI "td-cccc0001") k ≠ none →
        findItem (insertItem [] "td-cccc0001"
          { exI with status := "closed", updated_at := "2025-03-03T00:00:00Z" }) k =
          none :=
  close_preserves_partition exStoreI [] "td-cccc0001" "2025-03-03T00:00:00Z"
    (eraseItem exStoreI "td-cccc0001")
    (insertItem [] "td-cccc0001"
      { exI with status := "closed", updated_at := "2025-03-03T00:00:00Z" })
    (by decide) (fun k _ => rfl) rfl

theorem load_lines_error_of_invalid (lines : List Line) :
    ∀ acc, Line.invalid ∈ lines → ∃ e, load_lines lines acc = .error e := by
  induction lines with
  | nil => intro acc h; cases h
  | cons l rest ih =>
    intro acc h
    cases l with
    | blank =>
      have : Line.invalid ∈ rest := by
        rcases List.mem_cons.mp h with h1 | h1
        · cases h1
        · exact h1
      exact ih acc this
    | invalid => exact ⟨.invalidJson, rfl⟩
    | json j =>
      have hm : Line.invalid ∈ rest := by
        rcases List.mem_cons.mp h with h1 | h1
        · cases h1
        · exact h1
      cases hid : record_id j with
      | none => exact ⟨.badRecord, by simp [load_lines, hid]⟩
      | some k =>
        obtain ⟨e, he⟩ := ih (insertRaw acc k j) hm
        exact ⟨e, by simp [load_lines, hid, he]⟩

theorem load_lines_error_of_noid (lines : List Line) :
    ∀ acc (j : Json), Line.json j ∈ lines → getField j "id" = none →
      ∃ e, load_lines lines acc = .error e := by
  induction lines with
  | nil => intro acc j h _; cases h
  | cons l rest ih =>
    intro acc j h hid
    cases l with
    | blank =>
      have hm : Line.json j ∈ rest := by
        rcases List.mem_cons.mp h with h1 | h1
        · cases h1
        · exact h1
      exact ih acc j hm hid
    | invalid => exact ⟨.invalidJson, rfl⟩
    | json j0 =>
      rcases List.mem_cons.mp h with h1 | h1
      · cases h1
        have : record_id j = none := by simp [record_id, hid]
        exact ⟨.badRecord, by simp [load_lines, this]⟩
      · cases hid0 : record_id j0 with
        | none => exact ⟨.badRecord, by simp [load_lines, hid0]⟩
        | some k0 =>
          obtain ⟨e, he⟩ := ih (insertRaw acc k0 j0) j h1 hid
          exact ⟨e, by simp [load_lines, hid0, he]⟩

/-- C8: `load_todos` yields the empty mapping on a nonexistent or empty
file, and fails wholesale (no partial mapping) whenever some line is not
valid JSON or some record lacks an `id` field. -/
theorem load_todos_spec :
    load_todos none = .ok [] ∧
    load_todos (some []) = .ok [] ∧
    (∀ lines : List Line, Line.invalid ∈ lines →
      ∃ e, load_todos (some lines) = .error e) ∧
    (∀ (lines : List Line) (j : Json), Line.json j ∈ lines →
      getField j "id" = none → ∃ e, load_todos (some lines) = .error e) := by
  refine ⟨rfl, rfl, ?_, ?_⟩
  · intro lines h
    exact load_lines_error_of_invalid lines [] h
  · intro lines j h hid
    exact load_lines_error_of_noid lines [] j h hid

/-- C8 witness: a file with an unparseable line fails, and so does a file
whose record is an object without an `id` field. -/
theorem load_todos_spec_witness :
    (∃ e, load_todos (some [Line.invalid]) = .error e) ∧
    (∃ e, load_todos (some [Line.json (Json.obj [])]) = .error e) :=
  ⟨load_todos_spec.2.2.1 [Line.invalid] (List.mem_singleton.mpr rfl),
   load_todos_spec.2.2.2 [Line.json (Json.obj [])] (Json.obj [])
     (List.mem_singleton.mpr rfl) rfl⟩

theorem findRaw_insert_self (s : RawStore) (k : JKey) (v : Json) :
    findRaw (insertRaw s k v) k = some v := by
  induction s with
  | nil => simp [insertRaw, findRaw]
  | cons p rest ih =>
    obtain ⟨kp, vp⟩ := p
    by_cases h : kp = k
    · simp [insertRaw, findRaw, h]
    · simp [insertRaw, findRaw, h, ih]

theorem findRaw_insert_ne (s : RawStore) (k k2 : JKey) (v : Json)
    (h : k2 ≠ k) : findRaw (insertRaw s k v) k2 = findRaw s k2 := by
  induction s with
  | nil => simp [insertRaw, findRaw, Ne.symm h]
  | cons p rest ih =>
    obtain ⟨kp, vp⟩ := p
    by_cases hk : kp = k
    · subst hk
      simp [insertRaw, findRaw, Ne.symm h]
    · simp only [insertRaw, if_neg hk, findRaw]
      by_cases hk2 : kp = k2
      · simp [hk2]
      · simp [hk2, ih]

theorem load_lines_good (lines : List Line) :
    ∀ acc, (∀ l ∈ lines, good_line l) →
      ∃ R, load_lines lines acc = .ok R ∧
        ∀ k : JKey, findRaw R k =
          match last_with (fun j => record_id j == some k)
              (lines.filterMap line_record) with
          | some j => some j
          | none => findRaw acc k := by
  induction lines with
  | nil =>
    intro acc _
    exact ⟨acc, rfl, fun k => by simp [last_with]⟩
  | cons l rest ih =>
    intro acc hg
    have hgrest : ∀ x ∈ rest, good_line x :=
      fun x hx => hg x (List.mem_cons_of_mem l hx)
    cases l with
    | blank =>
      obtain ⟨R, hR, hfind⟩ := ih acc hgrest
      exact ⟨R, hR, fun k => by simpa [line_record] using hfind k⟩
    | invalid =>
      have := hg .invalid (List.mem_cons_self _ _)
      rcases this with h1 | ⟨j, k, h1, _⟩
      · cases h1
      · cases h1
    | json j =>
      have := hg (.json j) (List.mem_cons_self _ _)
      rcases this with h1 | ⟨j0, kj, h1, hkj⟩
      · cases h1
      · cases h1
        obtain ⟨R, hR, hfind⟩ := ih (insertRaw acc kj j) hgrest
        refine ⟨R, by simp [load_lines, hkj, hR], fun k => ?_⟩
        rw [hfind k]
        simp only [List.filterMap_cons, line_record, last_with]
        cases hlw : last_with (fun jj => record_id jj == some k)
            (rest.filterMap line_record) with
        | some r => simp
        | none =>
          simp only []
          by_cases hpk : kj = k
          · subst hpk
            have hbeq : (record_id j == some kj) = true := by simp [hkj]
            rw [if_pos hbeq]
            exact findRaw_insert_self acc kj j
          · have hbeq : (record_id j == some k) = false := by simp [hkj, hpk]
            rw [if_neg (by simp [hbeq])]
            exact findRaw_insert_ne acc kj k j (Ne.symm hpk)

/-- C10: on a file whose lines are all loadable records (or blank), the load
succeeds even when several records carry the same id, and each id is bound
to the record of the last such line. -/
theorem load_duplicates_last_wins (lines : List Line)
    (h : ∀ l ∈ lines, good_line l) :
    ∃ R, load_todos (some lines) = .ok R ∧
      ∀ k : JKey, findRaw R k =
        last_with (fun j => record_id j == some k)
          (lines.filterMap line_record) := by
  obtain ⟨R, hR, hfind⟩ := load_lines_good lines [] h
  refine ⟨R, hR, fun k => ?_⟩
  rw [hfind k]
  cases last_with (fun j => record_id j == some k) (lines.filterMap line_record) with
  | some j => rfl
  | none => rfl

/-- C10 witness: two records with the same id load without error and the
second one wins. -/
theorem load_duplicates_last_wins_witness :
    ∃ R, load_todos (some [Line.json (itemToJson exI),
        Line.json (itemToJson { exI with title := "second" })]) = .ok R ∧
      ∀ k : JKey, findRaw R k =
        last_with (fun j => record_id j == some k)
          ([Line.json (itemToJson exI),
            Line.json (itemToJson { exI with title := "second" })].filterMap
            line_record) :=
  load_duplicates_last_wins _ (by
    intro l hl
    rcases List.mem_cons.mp hl with h1 | h1
    · exact Or.inr ⟨itemToJson exI, .str "td-cccc0001", h1, rfl⟩
    · rcases List.mem_cons.mp h1 with h2 | h2
      · exact Or.inr ⟨itemToJson { exI with title := "second" },
          .str "td-cccc0001", h2, rfl⟩
      · cases h2)

theorem record_id_itemToJson (it : Item) :
    record_id (itemToJson it) = some (.str it.id) := rfl

theorem load_lines_write (l : Store) :
    ∀ acc, load_lines (l.map (fun p => Line.json (itemToJson p.2))) acc =
      .ok (l.foldl (fun a p => insertRaw a (.str p.2.id) (itemToJson p.2)) acc) := by
  induction l with
  | nil => intro acc; rfl
  | cons p rest ih =>
    intro acc
    simp only [List.map_cons, load_lines, record_id_itemToJson, List.foldl_cons]
    exact ih (insertRaw acc (.str p.2.id) (itemToJson p.2))

theorem findRaw_write_foldl (l : Store) :
    ∀ acc (k : String), (keys l).Nodup → (∀ p ∈ l, Item.id p.2 = p.1) →
      findRaw (l.foldl (fun a p => insertRaw a (.str p.2.id) (itemToJson p.2)) acc)
        (.str k) =
      match findItem l k with
      | some it => some (itemToJson it)
      | none => findRaw acc (.str k) := by
  induction l with
  | nil => intro acc k _ _; rfl
  | cons p rest ih =>
    intro acc k hnd hid
    obtain ⟨k0, it0⟩ := p
    have hid0 : it0.id = k0 := hid (k0, it0) (List.mem_cons_self _ _)
    have hidrest : ∀ q ∈ rest, Item.id q.2 = q.1 :=
      fun q hq => hid q (List.mem_cons_of_mem _ hq)
    simp only [keys, List.map_cons, List.nodup_cons] at hnd
    simp only [List.foldl_cons]
    rw [ih _ k hnd.2 hidrest]
    by_cases hk : k0 = k
    · subst hk
      have hnone : findItem rest k0 = none :=
        (findItem_eq_none_iff rest k0).mpr hnd.1
      rw [hnone]
      simp only [findItem, if_pos rfl, hid0]
      exact findRaw_insert_self acc (.str k0) (itemToJson it0)
    · simp only [findItem, if_neg hk]
      cases hfr : findItem rest k with
      | some it => rfl
      | none =>
        rw [hid0]
        exact findRaw_insert_ne acc (.str k0) (.str k) (itemToJson it0)
          (fun hc => hk (JKey.str.inj hc).symm)

theorem itemToJson_injective : Function.Injective itemToJson := by
  intro a b h
  obtain ⟨aid, atitle, asummary, astatus, adeps, aupd⟩ := a
  obtain ⟨bid, btitle, bsummary, bstatus, bdeps, bupd⟩ := b
  simp only [itemToJson, Json.obj.injEq, List.cons.injEq, Prod.mk.injEq,
    true_and, and_true, Json.str.injEq, Json.arr.injEq] at h
  obtain ⟨h1, h2, h3, h4, h5, h6⟩ := h
  have hdeps : adeps = bdeps :=
    List.map_injective_iff.mpr (fun x y hxy => Json.str.inj hxy) h5
  simp_all

/-- C5: saving a mapping whose items carry their own key as id and loading
it back yields the saved mapping: each key resolves to exactly the record of
the saved item, the encoding is injective (so every field, including empty
`deps` and empty `summary`, is preserved), and no other key is present. -/
theorem save_load_roundtrip (s : Store) (hnd : (keys s).Nodup)
    (hid : ∀ p ∈ s, Item.id p.2 = p.1) :
    ∃ R, load_todos (some (write_todos s)) = .ok R ∧
      (∀ k : String, findRaw R (.str k) = (findItem s k).map itemToJson) ∧
      Function.Injective itemToJson := by
  have hperm : (sort_store s).Perm s := List.perm_insertionSort keyLe s
  have hnd2 : (keys (sort_store s)).Nodup :=
    ((hperm.map Prod.fst).nodup_iff).mpr hnd
  have hid2 : ∀ p ∈ sort_store s, Item.id p.2 = p.1 :=
    fun p hp => hid p (hperm.mem_iff.mp hp)
  refine ⟨(sort_store s).foldl
      (fun a p => insertRaw a (.str p.2.id) (itemToJson p.2)) [], ?_, ?_,
      itemToJson_injective⟩
  · exact load_lines_write (sort_store s) []
  · intro k
    rw [findRaw_write_foldl (sort_store s) [] k hnd2 hid2]
    rw [findItem_perm hperm hnd2 k]
    cases findItem s k with
    | some it => rfl
    | none => rfl

/-- C5 witness: a one-item store (empty `deps`, empty `summary`) and an
absent key. -/
theorem save_load_roundtrip_witness :
    ∃ R, load_todos (some (write_todos exStoreI)) = .ok R ∧
      (∀ k : String, findRaw R (.str k) = (findItem exStoreI k).map itemToJson) ∧
      Function.Injective itemToJson :=
  save_load_roundtrip exStoreI (by decide)
    (fun p hp => by
      rcases List.mem_singleton.mp hp with h
      rw [h]
      rfl)

theorem keys_merge_with (order : List String) (ours theirs : Store) :
    keys (merge_with order ours theirs) =
      order.filter (fun k =>
        (merge_pick (findItem ours k) (findItem theirs k)).isSome) := by
  induction order with
  | nil => rfl
  | cons h0 rest ih =>
    cases hp : merge_pick (findItem ours h0) (findItem theirs h0) with
    | none =>
      have heq : merge_with (h0 :: rest) ours theirs = merge_with rest ours theirs := by
        simp [merge_with, List.filterMap_cons, hp]
      rw [heq, ih, List.filter_cons, hp]
      rfl
    | some it =>
      have heq : merge_with (h0 :: rest) ours theirs =
          (h0, it) :: merge_with rest ours theirs := by
        simp [merge_with, List.filterMap_cons, hp]
      rw [heq, List.filter_cons, hp]
      simp only [Option.isSome_some, if_pos]
      rw [keys, List.map_cons, ← keys, ih]

theorem merge_sort_pairwise (o : List String) (ours theirs : Store)
    (hnd : o.Nodup) :
    List.Pairwise (fun a b : String × Item => a.1 < b.1)
      (sort_store (merge_with o ours theirs)) := by
  have hple : List.Pairwise keyLe (sort_store (merge_with o ours theirs)) :=
    List.sorted_insertionSort keyLe (merge_with o ours theirs)
  have hknd : (keys (merge_with o ours theirs)).Nodup := by
    rw [keys_merge_with]
    exact List.Nodup.sublist (List.filter_sublist o) hnd
  have hknd2 : (keys (sort_store (merge_with o ours theirs))).Nodup := by
    have hperm := (List.perm_insertionSort keyLe (merge_with o ours theirs)).map Prod.fst
    exact hperm.nodup_iff.mpr hknd
  have hpne : List.Pairwise (fun a b : String × Item => a.1 ≠ b.1)
      (sort_store (merge_with o ours theirs)) :=
    List.pairwise_map.mp hknd2
  exact (hple.and hpne).imp
    (fun hab => lt_of_le_of_ne ((str_le_iff _ _).mp hab.1) hab.2)

theorem merge_write_eq (o1 o2 : List String) (ours theirs : Store)
    (hperm : o1.Perm o2) (hnd : o1.Nodup) :
    write_todos (merge_with o1 ours theirs) =
      write_todos (merge_with o2 ours theirs) := by
  have hnd2 : o2.Nodup := hperm.nodup_iff.mp hnd
  have hm : (merge_with o1 ours theirs).Perm (merge_with o2 ours theirs) :=
    hperm.filterMap _
  have hchain : (sort_store (merge_with o1 ours theirs)).Perm
      (sort_store (merge_with o2 ours theirs)) :=
    ((List.perm_insertionSort keyLe _).trans hm).trans
      (List.perm_insertionSort keyLe _).symm
  letI : IsAntisymm (String × Item) (fun a b => a.1 < b.1) :=
    ⟨fun a b hab hba => absurd hba (lt_asymm hab)⟩
  have heq : sort_store (merge_with o1 ours theirs) =
      sort_store (merge_with o2 ours theirs) :=
    List.eq_of_perm_of_sorted hchain
      (merge_sort_pairwise o1 ours theirs hnd)
      (merge_sort_pairwise o2 ours theirs hnd2)
  rw [write_todos, write_todos, heq]

/-- C9: the merge driver is deterministic: any two visiting orders of the id
set (Python set iteration: each id of the union once, in whatever order)
produce identical serialized output, equal to the canonical run, and the
output records are in strictly ascending id order. -/
theorem merge_deterministic (base ours theirs : Store) (o1 o2 : List String)
    (h1 : o1.Perm (union_ids base ours theirs))
    (h2 : o2.Perm (union_ids base ours theirs)) :
    write_todos (merge_with o1 ours theirs) =
      write_todos (merge_with o2 ours theirs) ∧
    write_todos (merge_with o1 ours theirs) =
      write_todos (cmd_merge base ours theirs) ∧
    List.Sorted (fun a b => a < b)
      (keys (sort_store (merge_with o1 ours theirs))) := by
  have hndu : (union_ids base ours theirs).Nodup := List.nodup_dedup _
  have hnd1 : o1.Nodup := h1.nodup_iff.mpr hndu
  refine ⟨?_, ?_, ?_⟩
  · exact merge_write_eq o1 o2 ours theirs (h1.trans h2.symm) hnd1
  · exact merge_write_eq o1 (union_ids base ours theirs) ours theirs h1 hnd1
  · have hpw := merge_sort_pairwise o1 ours theirs hnd1
    exact List.pairwise_map.mpr hpw

/-- C9 witness: two opposite visiting orders over a two-sided input. -/
theorem merge_deterministic_witness :
    write_todos (merge_with ["td-mmmm0001", "td-aaaa0001"]
        [("td-mmmm0001", exOurs)] [("td-aaaa0001", exA)]) =
      write_todos (merge_with ["td-aaaa0001", "td-mmmm0001"]
        [("td-mmmm0001", exOurs)] [("td-aaaa0001", exA)]) ∧
    write_todos (merge_with ["td-mmmm0001", "td-aaaa0001"]
        [("td-mmmm0001", exOurs)] [("td-aaaa0001", exA)]) =
      write_todos (cmd_merge [] [("td-mmmm0001", exOurs)] [("td-aaaa0001", exA)]) ∧
    List.Sorted (fun a b => a < b)
      (keys (sort_store (merge_with ["td-mmmm0001", "td-aaaa0001"]
        [("td-mmmm0001", exOurs)] [("td-aaaa0001", exA)]))) :=
  merge_deterministic [] [("td-mmmm0001", exOurs)] [("td-aaaa0001", exA)]
    ["td-mmmm0001", "td-aaaa0001"] ["td-aaaa0001", "td-mmmm0001"]
    (by decide) (by decide)

end TodoCore
